import Mathlib

/-!
Verification of the tip-distribution allocation logic of `src/TipDistribution.tsx`.

Numbers are embedded as rationals (`ℚ`): the source uses JavaScript numbers, and
every decimal literal appearing in the source (`0.8`, `0.5`, ...) is read as the
corresponding rational.  `Math.round` is embedded as `jsRound q = ⌊q + 1/2⌋`
(round half toward +∞), which is JavaScript's rounding on finite values.
Records (`hoursGrid`) are embedded as association lists; `undefined` string
fields are represented by the empty string (the source only ever uses them
through `|| 'default'` / `(t || '')`, where `undefined` and `''` coincide).
-/

namespace TipApp

/-- JavaScript `Math.round`: rounds half toward positive infinity. -/
def jsRound (q : ℚ) : ℤ := ⌊q + 1/2⌋

/-- Round half away from zero (the rounding mode named by the specification). -/
def roundHalfAwayFromZero (q : ℚ) : ℤ :=
  if 0 ≤ q then ⌊q + 1/2⌋ else -⌊-q + 1/2⌋

/-- An employee row of the UI state (`interface Employee`).  The legacy `hours`
field is unused by every computation modelled here and is omitted; the optional
`type` field is represented as a `String`, with `""` standing for `undefined`. -/
structure Employee where
  id : String
  name : String
  type : String
  deriving DecidableEq, Repr

/-- `hoursGrid[employeeId][dateString] = hours`, as an association list. -/
abbrev Grid := List (String × List (String × ℚ))

/-- `(hoursGrid[emp.id] && hoursGrid[emp.id][d]) || 0`. -/
def gridLookup (grid : Grid) (empId dateStr : String) : ℚ :=
  match grid.lookup empId with
  | none => 0
  | some perDay => (perDay.lookup dateStr).getD 0

/-- Result of the `employeeTotals` map: week-restricted hour total per employee. -/
structure EmployeeTotal where
  id : String
  name : String
  total : ℚ
  type : String
  deriving DecidableEq, Repr

/-- `employeeTotals` (TipDistribution.tsx:205-208): per-employee totals for the
current week, summing `hoursGrid` values over the week's dates only. -/
def employeeTotals (employees : List Employee) (grid : Grid)
    (weekDates : List String) : List EmployeeTotal :=
  employees.map fun emp =>
    { id := emp.id
      name := if emp.name = "" then "Unnamed" else emp.name
      total := weekDates.foldl (fun s d => s + gridLookup grid emp.id d) 0
      type := if emp.type = "" then "waiter" else emp.type }

/-- JavaScript `String.prototype.toLowerCase` on the ASCII role labels used
here: lowercase each character. -/
def jsToLower (s : String) : String := String.mk (s.data.map Char.toLower)

/-- `getMultiplier` (TipDistribution.tsx:434-442): role multiplier mapping,
applied to `(t || '').toLowerCase()` (representing an absent `type` by `""`,
which falls through to the default branch). -/
def getMultiplier (t : String) : ℚ :=
  if jsToLower t = "experienced waiter" then 1
  else if jsToLower t = "waiter" then 4/5
  else if jsToLower t = "kitchen" then 1/2
  else if jsToLower t = "new" then 3/5
  else 4/5

/-- Evaluation of the multiplier at the `"waiter"` role. -/
theorem getMultiplier_waiter : getMultiplier "waiter" = 4/5 := by
  rw [getMultiplier, if_neg (by decide), if_pos (by decide)]

/-- An element of `totalsWithPoints`: an employee total extended with the role
multiplier and the weighted points. -/
structure PointsRow where
  id : String
  name : String
  total : ℚ
  type : String
  mult : ℚ
  points : ℚ
  deriving DecidableEq, Repr

/-- Body of the `totalsWithPoints` map (TipDistribution.tsx:444-448). -/
def pointsRowOf (emp : EmployeeTotal) : PointsRow :=
  { id := emp.id, name := emp.name, total := emp.total, type := emp.type
    mult := getMultiplier emp.type
    points := emp.total * getMultiplier emp.type }

/-- `totalsWithPoints` (TipDistribution.tsx:444-448). -/
def totalsWithPoints (ets : List EmployeeTotal) : List PointsRow :=
  ets.map pointsRowOf

/-- `totalEmployeePoints` (TipDistribution.tsx:450). -/
def totalEmployeePoints (rows : List PointsRow) : ℚ :=
  rows.foldl (fun s e => s + e.points) 0

/-- One row of the live distribution table. -/
structure EmployeeRow where
  emp : PointsRow
  rawPropPoints : ℚ
  prop : ℚ
  weeklyRaw : ℚ
  weeklyRounded : ℚ
  deriving DecidableEq, Repr

/-- Body of the `employeeRows` map (TipDistribution.tsx:456-462): guarded raw
proportion of points, scaled by `1 - restaurantShare`, multiplied by the pool,
and rounded to the nearest multiple of 5 with `Math.round`. -/
def employeeRowOf (totalPts restaurantShare totalTipsValue : ℚ)
    (emp : PointsRow) : EmployeeRow :=
  let rawPropPoints := if 0 < totalPts then emp.points / totalPts else 0
  let prop := rawPropPoints * (1 - restaurantShare)
  let weeklyRaw := prop * totalTipsValue
  let weeklyRounded := (jsRound (weeklyRaw / 5) : ℚ) * 5
  { emp := emp, rawPropPoints := rawPropPoints, prop := prop,
    weeklyRaw := weeklyRaw, weeklyRounded := weeklyRounded }

/-- `employeeRows` (TipDistribution.tsx:456-462). -/
def employeeRows (rows : List PointsRow) (restaurantShare totalTipsValue : ℚ) :
    List EmployeeRow :=
  rows.map (employeeRowOf (totalEmployeePoints rows) restaurantShare totalTipsValue)

/-- `sumEmployeesRounded` (TipDistribution.tsx:464). -/
def sumEmployeesRounded (rs : List EmployeeRow) : ℚ :=
  rs.foldl (fun s r => s + r.weeklyRounded) 0

/-- `restaurantAmount` (TipDistribution.tsx:466): the exact residual of the pool
after the employees' rounded amounts; may be negative. -/
def restaurantAmount (rows : List PointsRow) (restaurantShare totalTipsValue : ℚ) : ℚ :=
  totalTipsValue - sumEmployeesRounded (employeeRows rows restaurantShare totalTipsValue)

/-- `restaurantRow` (TipDistribution.tsx:468). -/
def restaurantRow (rows : List PointsRow) (restaurantShare totalTipsValue : ℚ) :
    EmployeeRow :=
  { emp := { id := "restaurant", name := "Restaurant", total := 0,
             type := "restaurant", mult := 0, points := 0 },
    rawPropPoints := 0, prop := restaurantShare,
    weeklyRaw := restaurantShare * totalTipsValue,
    weeklyRounded := restaurantAmount rows restaurantShare totalTipsValue }

/-- `finalRows` (TipDistribution.tsx:470): all employee rows plus the house row. -/
def finalRows (rows : List PointsRow) (restaurantShare totalTipsValue : ℚ) :
    List EmployeeRow :=
  employeeRows rows restaurantShare totalTipsValue ++
    [restaurantRow rows restaurantShare totalTipsValue]

/-- `propAfter` (TipDistribution.tsx:479): proportion after rounding, with the
division by the pool guarded. -/
def propAfter (totalTipsValue weeklyRounded : ℚ) : ℚ :=
  if 0 < totalTipsValue then weeklyRounded / totalTipsValue else 0

/-- The `totalTips` text-input state, abstracted to what the source observes of
it: `isEmpty` is whether the string is `""` (the only falsy string, deciding
`!totalTips`), and `parsed` is the result of `parseFloat`, with `none` standing
for `NaN` (`parseFloat` of `""` or of any unparseable string). -/
structure TotalTipsStr where
  isEmpty : Bool
  parsed : Option ℚ
  deriving DecidableEq, Repr

/-- `totalTipsValue = parseFloat(totalTips) || 0` (TipDistribution.tsx:453):
`NaN` falls back to `0`, `0` stays `0`, any other parse is kept. -/
def totalTipsValue (t : TotalTipsStr) : ℚ := t.parsed.getD 0

/-- An element of `employeesWithTotals` (TipDistribution.tsx:158-162): an
employee with the total of ALL of their `hoursGrid` entries (note: not
restricted to the selected week). -/
structure EmployeeWithTotal where
  id : String
  name : String
  totalHours : ℚ
  type : String
  deriving DecidableEq, Repr

/-- `employeesWithTotals` (TipDistribution.tsx:158-162): sums
`Object.values(hoursGrid[e.id])` — every recorded day, whatever its date. -/
def employeesWithTotals (employees : List Employee) (grid : Grid) :
    List EmployeeWithTotal :=
  employees.map fun e =>
    { id := e.id, name := e.name
      totalHours :=
        match grid.lookup e.id with
        | none => 0
        | some perDay => perDay.foldl (fun s v => s + v.2) 0
      type := e.type }

/-- `validEmployees` (TipDistribution.tsx:164): keep entries with a truthy
(non-empty) name and strictly positive total hours. -/
def validEmployees (ewt : List EmployeeWithTotal) : List EmployeeWithTotal :=
  ewt.filter fun e => !(e.name == "") && decide (0 < e.totalHours)

/-- The two failure modes of `calculateTips` validation (the two `setError`
early returns, TipDistribution.tsx:152-168). -/
inductive CalcError where
  | invalidPool
  | noEligibleEmployees
  deriving DecidableEq, Repr

/-- The validation prefix of `calculateTips` (TipDistribution.tsx:147-177):
`if (!totalTips || parseFloat(totalTips) <= 0)` fails first (note `NaN <= 0`
is `false`, so a non-empty unparseable string passes); then the filtered
employee list must be non-empty; on success the parsed pool and the valid
employees are handed to the request. -/
def calculateTipsValidation (t : TotalTipsStr) (employees : List Employee)
    (grid : Grid) : Except CalcError (Option ℚ × List EmployeeWithTotal) :=
  if t.isEmpty || (match t.parsed with
                   | none => false
                   | some v => decide (v ≤ 0)) then
    .error .invalidPool
  else
    let valid := validEmployees (employeesWithTotals employees grid)
    if valid.isEmpty then .error .noEligibleEmployees
    else .ok (t.parsed, valid)

/-- Whether a validation outcome is a success. -/
def calcIsOk (r : Except CalcError (Option ℚ × List EmployeeWithTotal)) : Bool :=
  match r with
  | .ok _ => true
  | .error _ => false

/-- The running best of the `approxFraction` search loop
(`let best = { n: 0, d: 1, err: 1 }`, TipDistribution.tsx:219). -/
structure FracBest where
  n : ℤ
  d : ℕ
  err : ℚ
  deriving DecidableEq, Repr

/-- Loop body of `approxFraction` (TipDistribution.tsx:220-224):
`n = Math.round(x * d); err = |x - n/d|;` keep the new candidate only on a
strict improvement. -/
def fracStep (x : ℚ) (best : FracBest) (d : ℕ) : FracBest :=
  let n := jsRound (x * (d : ℚ))
  let err := |x - (n : ℚ) / (d : ℚ)|
  if err < best.err then { n := n, d := d, err := err } else best

/-- The `for (let d = 1; d <= maxDen; d++)` search of `approxFraction`. -/
def fracSearch (x : ℚ) (maxDen : ℕ) : FracBest :=
  (List.range' 1 maxDen).foldl (fracStep x) { n := 0, d := 1, err := 1 }

/-- `approxFraction` (TipDistribution.tsx:217-228).  The `!isFinite(x)` guard
has no rational counterpart (rationals are always finite); `x <= 0` returns
`(0, 1)`, as does a best numerator of 0, and otherwise the best candidate is
reduced by the gcd of its parts (the source's Euclid loop on absolute values,
which is `Int.gcd`; the divisions are exact). -/
def approxFraction (x : ℚ) (maxDen : ℕ) : ℤ × ℕ :=
  if x ≤ 0 then (0, 1)
  else
    let best := fracSearch x maxDen
    if best.n = 0 then (0, 1)
    else (best.n / (Int.gcd best.n best.d : ℤ), best.d / Int.gcd best.n best.d)

/-- `setRestaurantShare` as driven by the Restaurant % input's onChange
(TipDistribution.tsx:299-304): an unparseable value (`NaN`, modelled `none`)
keeps the previous state; otherwise the share becomes `Math.max(0, v) / 100` —
clamped below at 0, with no upper clamp. -/
def setRestaurantShareValue (old : ℚ) (v : Option ℚ) : ℚ :=
  match v with
  | none => old
  | some x => max 0 x / 100

section Claims

/-- Sum of `weeklyRounded` over a list of rows, as a plain sum (for stating
conservation); agrees with the source's `reduce`. -/
theorem sumEmployeesRounded_append (xs ys : List EmployeeRow) :
    sumEmployeesRounded (xs ++ ys) =
      ys.foldl (fun s r => s + r.weeklyRounded) (sumEmployeesRounded xs) := by
  simp [sumEmployeesRounded, List.foldl_append]

/-- C1 (Conservation): over every list of point rows, every house-share value and
every pool value, the rounded amounts of all rows of the live distribution —
each employee row plus the single restaurant row — sum to exactly the pool,
because the restaurant row's amount is the pool minus the employees' rounded sum. -/
theorem conservation_sum_finalRows (rows : List PointsRow) (share tips : ℚ) :
    sumEmployeesRounded (finalRows rows share tips) = tips := by
  rw [finalRows, sumEmployeesRounded_append]
  simp [restaurantRow, restaurantAmount]

/-- On non-negative arguments JavaScript's `Math.round` agrees with
round-half-away-from-zero. -/
theorem jsRound_eq_roundHalfAwayFromZero (q : ℚ) (h : 0 ≤ q) :
    jsRound q = roundHalfAwayFromZero q := by
  rw [roundHalfAwayFromZero, if_pos h, jsRound]

/-- C2 (Rounding rule): every employee row of the live distribution, under the
spec's validity assumptions (house share in [0,1), non-negative pool and
non-negative points), has `weeklyRounded = round(weeklyRaw / 5) * 5` with the
round-half-away-from-zero mode, uniformly for all rows. -/
theorem rounding_rule (rows : List PointsRow) (share tips : ℚ)
    (hs1 : share < 1) (hp : 0 ≤ tips)
    (hpts : ∀ e ∈ rows, 0 ≤ e.points) :
    ∀ r ∈ employeeRows rows share tips,
      r.weeklyRounded = (roundHalfAwayFromZero (r.weeklyRaw / 5) : ℚ) * 5 := by
  intro r hr
  rw [employeeRows, List.mem_map] at hr
  obtain ⟨e, he, rfl⟩ := hr
  have hraw : 0 ≤ (employeeRowOf (totalEmployeePoints rows) share tips e).weeklyRaw := by
    simp only [employeeRowOf]
    have h1 : (0:ℚ) ≤
        (if 0 < totalEmployeePoints rows
          then e.points / totalEmployeePoints rows else 0) := by
      split
      · exact div_nonneg (hpts e he) (le_of_lt (by assumption))
      · exact le_refl 0
    have h2 : (0:ℚ) ≤ 1 - share := by linarith
    exact mul_nonneg (mul_nonneg h1 h2) hp
  have h5 : 0 ≤ (employeeRowOf (totalEmployeePoints rows) share tips e).weeklyRaw / 5 :=
    div_nonneg hraw (by norm_num)
  rw [← jsRound_eq_roundHalfAwayFromZero _ h5]
  rfl

/-- Concrete one-employee example used by several witnesses below. -/
def exampleTotal : EmployeeTotal :=
  { id := "1", name := "A", total := 10, type := "waiter" }

/-- Witness for the rounding rule at a concrete input: one waiter with 10 hours,
house share 0, pool 100. -/
theorem rounding_rule_witness :
    (employeeRowOf (totalEmployeePoints [pointsRowOf exampleTotal]) 0 100
        (pointsRowOf exampleTotal)).weeklyRounded =
      (roundHalfAwayFromZero
        ((employeeRowOf (totalEmployeePoints [pointsRowOf exampleTotal]) 0 100
          (pointsRowOf exampleTotal)).weeklyRaw / 5) : ℚ) * 5 := by
  refine rounding_rule [pointsRowOf exampleTotal] 0 100 (by norm_num) (by norm_num)
    (fun e hee => ?_) _ ?_
  · have : e = pointsRowOf exampleTotal := by simpa using hee
    subst this
    norm_num [pointsRowOf, exampleTotal, getMultiplier_waiter]
  · simp [employeeRows]

/-- The two-waiter scenario from the specification. -/
def scenarioTotals : List EmployeeTotal :=
  [{ id := "1", name := "A", total := 40, type := "waiter" },
   { id := "2", name := "B", total := 30, type := "waiter" }]

/-- C7 (Worked scenario): pool 500, house share 0, waiters A (40h) and B (30h)
give points 32 and 24 (total 56), rounded amounts 285 and 215, and a house
amount of 500 − 500 = 0. -/
theorem worked_scenario :
    (totalsWithPoints scenarioTotals).map PointsRow.points = [32, 24] ∧
    totalEmployeePoints (totalsWithPoints scenarioTotals) = 56 ∧
    (employeeRows (totalsWithPoints scenarioTotals) 0 500).map
      EmployeeRow.weeklyRounded = [285, 215] ∧
    restaurantAmount (totalsWithPoints scenarioTotals) 0 500 = 500 - (285 + 215) := by
  norm_num [scenarioTotals, totalsWithPoints, pointsRowOf, getMultiplier_waiter,
    totalEmployeePoints, employeeRows, employeeRowOf, jsRound,
    restaurantAmount, sumEmployeesRounded]

/-- C9 (Proportionality monotonicity): with the same total points, house share
in [0,1) and non-negative pool, an employee with strictly more points gets a
`weeklyRaw` at least as large. -/
theorem proportionality_monotonicity (A B : PointsRow) (totalPts share tips : ℚ)
    (hAB : B.points < A.points) (_hs0 : 0 ≤ share) (hs1 : share < 1)
    (hp : 0 ≤ tips) :
    (employeeRowOf totalPts share tips B).weeklyRaw ≤
      (employeeRowOf totalPts share tips A).weeklyRaw := by
  simp only [employeeRowOf]
  by_cases hT : 0 < totalPts
  · simp only [if_pos hT]
    have h1 : B.points / totalPts ≤ A.points / totalPts :=
      (div_le_div_iff_of_pos_right hT).mpr hAB.le
    have h2 : (0:ℚ) ≤ 1 - share := by linarith
    exact mul_le_mul_of_nonneg_right (mul_le_mul_of_nonneg_right h1 h2) hp
  · simp [if_neg hT]

/-- Witness for proportionality monotonicity: A with 32 points versus B with 24,
total points 56, house share 1/50, pool 500. -/
theorem proportionality_monotonicity_witness :
    (employeeRowOf 56 (1/50) 500
        (pointsRowOf { id := "2", name := "B", total := 30, type := "waiter" })).weeklyRaw ≤
      (employeeRowOf 56 (1/50) 500
        (pointsRowOf { id := "1", name := "A", total := 40, type := "waiter" })).weeklyRaw :=
  proportionality_monotonicity _ _ 56 (1/50) 500
    (by norm_num [pointsRowOf, getMultiplier_waiter]) (by norm_num) (by norm_num)
    (by norm_num)

/-- C10 (Degenerate-input totality): when the employees' points sum to zero the
guarded division makes every raw proportion 0, and when the pool string parses
to `NaN` or `0` the pool value is 0 and the proportion-after-rounding guard
yields 0. -/
theorem degenerate_totality (rows : List PointsRow) (share q : ℚ)
    (t : TotalTipsStr) :
    (totalEmployeePoints rows = 0 →
      ∀ r ∈ employeeRows rows share (totalTipsValue t), r.rawPropPoints = 0) ∧
    ((t.parsed = none ∨ t.parsed = some 0) →
      totalTipsValue t = 0 ∧ propAfter (totalTipsValue t) q = 0) := by
  constructor
  · intro hT r hr
    rw [employeeRows, List.mem_map] at hr
    obtain ⟨e, he, rfl⟩ := hr
    simp [employeeRowOf, hT]
  · intro h
    have hv : totalTipsValue t = 0 := by
      rcases h with h | h <;> simp [totalTipsValue, h]
    exact ⟨hv, by simp [propAfter, hv]⟩

/-- Witness for degenerate-input totality: a single zero-hours waiter (zero total
points) and an unparseable, non-empty pool string. -/
theorem degenerate_totality_witness :
    (employeeRowOf
        (totalEmployeePoints [pointsRowOf { id := "1", name := "A", total := 0, type := "waiter" }])
        (1/50)
        (totalTipsValue { isEmpty := false, parsed := none })
        (pointsRowOf { id := "1", name := "A", total := 0, type := "waiter" })).rawPropPoints = 0 ∧
    totalTipsValue { isEmpty := false, parsed := none } = 0 ∧
    propAfter (totalTipsValue { isEmpty := false, parsed := none }) 37 = 0 := by
  refine ⟨(degenerate_totality
      [pointsRowOf { id := "1", name := "A", total := 0, type := "waiter" }]
      (1/50) 37 { isEmpty := false, parsed := none }).1 ?_ _ ?_,
    (degenerate_totality [] (1/50) 37 { isEmpty := false, parsed := none }).2
      (Or.inl rfl)⟩
  · norm_num [totalEmployeePoints, pointsRowOf, getMultiplier_waiter]
  · simp [employeeRows]

/-- Every role multiplier is strictly positive. -/
theorem getMultiplier_pos (t : String) : 0 < getMultiplier t := by
  rw [getMultiplier]
  repeat' split
  all_goals norm_num

/-- C3 counterexample: a non-empty, unparseable pool string (`parseFloat`
gives `NaN`, so `parseFloat(totalTips) <= 0` is `false`) passes validation,
although the claim says the operation fails for unparseable pools. -/
theorem calc_validation_unparseable_passes :
    ({ isEmpty := false, parsed := none } : TotalTipsStr).parsed = none ∧
    calcIsOk (calculateTipsValidation { isEmpty := false, parsed := none }
      [{ id := "1", name := "A", type := "waiter" }]
      [("1", [("2025-06-02", 40)])]) = true := by
  refine ⟨rfl, ?_⟩
  simp [calculateTipsValidation, employeesWithTotals, validEmployees,
    List.lookup, List.filter, calcIsOk]

/-- C3 (amended): validation fails exactly when the pool string is empty, or
parses to a value ≤ 0, or no employee with non-empty name and positive total
hours remains after filtering; and every surviving employee necessarily has
strictly positive weighted points (every role multiplier is positive).  A
non-empty unparseable pool string is NOT rejected. -/
theorem calculateTips_validation_amended (t : TotalTipsStr)
    (emps : List Employee) (grid : Grid) :
    (calcIsOk (calculateTipsValidation t emps grid) = false ↔
      t.isEmpty = true ∨ (∃ v, t.parsed = some v ∧ v ≤ 0) ∨
        validEmployees (employeesWithTotals emps grid) = []) ∧
    ∀ e ∈ validEmployees (employeesWithTotals emps grid),
      e.name ≠ "" ∧ 0 < e.totalHours ∧ 0 < e.totalHours * getMultiplier e.type := by
  constructor
  · have hc1 : (t.isEmpty || (match t.parsed with
        | none => false
        | some v => decide (v ≤ 0))) = true ↔
        (t.isEmpty = true ∨ ∃ v, t.parsed = some v ∧ v ≤ 0) := by
      cases hp : t.parsed <;> simp [hp]
    have hc2 : (validEmployees (employeesWithTotals emps grid)).isEmpty = true ↔
        validEmployees (employeesWithTotals emps grid) = [] := by
      simp
    simp only [calculateTipsValidation]
    split
    · next h =>
      refine iff_of_true rfl ?_
      rcases hc1.mp h with h | h
      · exact Or.inl h
      · exact Or.inr (Or.inl h)
    · next h =>
      split
      · next h2 => exact iff_of_true rfl (Or.inr (Or.inr (hc2.mp h2)))
      · next h2 =>
        refine iff_of_false (by simp [calcIsOk]) ?_
        rintro (hA | hB | hC)
        · exact h (hc1.mpr (Or.inl hA))
        · exact h (hc1.mpr (Or.inr hB))
        · exact h2 (hc2.mpr hC)
  · intro e he
    rw [validEmployees, List.mem_filter] at he
    obtain ⟨-, hpred⟩ := he
    simp only [Bool.and_eq_true, Bool.not_eq_true', beq_eq_false_iff_ne,
      decide_eq_true_eq] at hpred
    exact ⟨hpred.1, hpred.2, mul_pos hpred.2 (getMultiplier_pos e.type)⟩

/-- Witness for the amended C3 at a concrete input: an empty pool string is
rejected. -/
theorem calculateTips_validation_amended_witness :
    calcIsOk (calculateTipsValidation { isEmpty := true, parsed := none }
      [{ id := "1", name := "A", type := "waiter" }]
      [("1", [("2025-06-02", 40)])]) = false :=
  (calculateTips_validation_amended { isEmpty := true, parsed := none }
    [{ id := "1", name := "A", type := "waiter" }]
    [("1", [("2025-06-02", 40)])]).1.mpr (Or.inl rfl)

/-- C4 counterexample: entering 200 in the Restaurant % field sets the share to
2, far above 0.99 — there is no upper clamp. -/
theorem houseShare_clamp_counterexample :
    setRestaurantShareValue (1/50) (some 200) = 2 ∧
      ¬ setRestaurantShareValue (1/50) (some 200) ≤ 99/100 := by
  have hval : setRestaurantShareValue (1/50) (some 200) = max 0 200 / 100 := rfl
  rw [hval]
  norm_num

/-- C4 (amended): the share set from a parsed numeric value `v` is
`max(0, v) / 100` — non-negative, values below 0 raised to 0, and every value
above 0 used as-is with no upper clamp (so percent inputs above 99 give
fractions above 0.99). -/
theorem houseShare_clamp_amended (old v : ℚ) :
    0 ≤ setRestaurantShareValue old (some v) ∧
    (v ≤ 0 → setRestaurantShareValue old (some v) = 0) ∧
    (0 ≤ v → setRestaurantShareValue old (some v) = v / 100) := by
  have hval : setRestaurantShareValue old (some v) = max 0 v / 100 := rfl
  rw [hval]
  refine ⟨div_nonneg (le_max_left 0 v) (by norm_num), fun h => ?_, fun h => ?_⟩
  · rw [max_eq_left h]
    norm_num
  · rw [max_eq_right h]

/-- Witness for the amended C4: a 200% input yields share 200/100 = 2. -/
theorem houseShare_clamp_amended_witness :
    (0:ℚ) ≤ 200 ∧ setRestaurantShareValue (1/50) (some 200) = 200 / 100 :=
  ⟨by norm_num, (houseShare_clamp_amended (1/50) 200).2.2 (by norm_num)⟩

/-- C5 counterexample: an employee with empty name and 10 hours is NOT excluded
by the live distribution — they contribute 8 points and receive the whole
rounded pool, contradicting "filtering is applied identically in every layer". -/
theorem empty_name_share_counterexample :
    totalEmployeePoints (totalsWithPoints
        (employeeTotals [{ id := "1", name := "", type := "waiter" }]
          [("1", [("2025-06-02", 10)])] ["2025-06-02"])) = 8 ∧
    (employeeRows (totalsWithPoints
        (employeeTotals [{ id := "1", name := "", type := "waiter" }]
          [("1", [("2025-06-02", 10)])] ["2025-06-02"])) 0 100).map
      EmployeeRow.weeklyRounded = [100] := by
  norm_num [employeeTotals, gridLookup, List.lookup, totalsWithPoints,
    pointsRowOf, getMultiplier_waiter, totalEmployeePoints, employeeRows,
    employeeRowOf, jsRound]

/-- C5 (amended): the `calculateTips` path filters out empty names and
non-positive hours; the live distribution does not filter, but a zero-hours
employee there has zero points, zero raw proportion and a zero rounded amount
(no share) — while empty-name employees with positive hours do get a share. -/
theorem zero_hours_exclusion_amended (ewt : List EmployeeWithTotal)
    (totalPts share tips : ℚ) (et : EmployeeTotal) :
    (∀ e ∈ validEmployees ewt, e.name ≠ "" ∧ 0 < e.totalHours) ∧
    (et.total = 0 →
      (pointsRowOf et).points = 0 ∧
      (employeeRowOf totalPts share tips (pointsRowOf et)).rawPropPoints = 0 ∧
      (employeeRowOf totalPts share tips (pointsRowOf et)).weeklyRounded = 0) := by
  constructor
  · intro e he
    rw [validEmployees, List.mem_filter] at he
    obtain ⟨-, hpred⟩ := he
    simp only [Bool.and_eq_true, Bool.not_eq_true', beq_eq_false_iff_ne,
      decide_eq_true_eq] at hpred
    exact hpred
  · intro h0
    have hpts : (pointsRowOf et).points = 0 := by
      simp [pointsRowOf, h0]
    refine ⟨hpts, ?_, ?_⟩
    · simp [employeeRowOf, hpts]
    · simp [employeeRowOf, hpts, jsRound]
      norm_num

/-- Witness for the amended C5: a zero-hours waiter gets points 0, raw
proportion 0 and rounded amount 0. -/
theorem zero_hours_exclusion_amended_witness :
    (pointsRowOf { id := "1", name := "A", total := 0, type := "waiter" }).points = 0 ∧
    (employeeRowOf 56 (1/50) 500
      (pointsRowOf { id := "1", name := "A", total := 0, type := "waiter" })).rawPropPoints = 0 ∧
    (employeeRowOf 56 (1/50) 500
      (pointsRowOf { id := "1", name := "A", total := 0, type := "waiter" })).weeklyRounded = 0 :=
  (zero_hours_exclusion_amended [] 56 (1/50) 500
    { id := "1", name := "A", total := 0, type := "waiter" }).2 rfl

/-- C6 (code evaluated at the failing input): an hours entry recorded under
`2025-01-01`, with the selected week being 2025-06-02 … 2025-06-08, is counted
in full by `calculateTips`' per-employee total (5 hours) although the
week-restricted total used everywhere else in the UI is 0. -/
theorem week_aggregation_divergence :
    (employeesWithTotals [{ id := "1", name := "A", type := "waiter" }]
        [("1", [("2025-01-01", 5)])]).map EmployeeWithTotal.totalHours = [5] ∧
    (employeeTotals [{ id := "1", name := "A", type := "waiter" }]
        [("1", [("2025-01-01", 5)])]
        ["2025-06-02", "2025-06-03", "2025-06-04", "2025-06-05", "2025-06-06",
         "2025-06-07", "2025-06-08"]).map EmployeeTotal.total = [0] := by
  constructor
  · norm_num [employeesWithTotals, List.lookup]
  · norm_num [employeeTotals, gridLookup, List.lookup,
      show ("2025-06-02" == "2025-01-01") = false from rfl,
      show ("2025-06-03" == "2025-01-01") = false from rfl,
      show ("2025-06-04" == "2025-01-01") = false from rfl,
      show ("2025-06-05" == "2025-01-01") = false from rfl,
      show ("2025-06-06" == "2025-01-01") = false from rfl,
      show ("2025-06-07" == "2025-01-01") = false from rfl,
      show ("2025-06-08" == "2025-01-01") = false from rfl]

/-- The error of the loop's candidate at denominator `d`. -/
def errAt (x : ℚ) (d : ℕ) : ℚ :=
  |x - (jsRound (x * (d : ℚ)) : ℚ) / (d : ℚ)|

/-- `Math.round` lands within 1/2 of its argument. -/
theorem jsRound_dist_le_half (q : ℚ) : |q - (jsRound q : ℚ)| ≤ 1/2 := by
  rw [jsRound]
  have h1 : ((⌊q + 1/2⌋ : ℤ) : ℚ) ≤ q + 1/2 := Int.floor_le _
  have h2 : q + 1/2 < (⌊q + 1/2⌋ : ℚ) + 1 := Int.lt_floor_add_one _
  rw [abs_le]
  constructor <;> linarith

/-- `Math.round q` is a nearest integer to `q`. -/
theorem jsRound_nearest (q : ℚ) (m : ℤ) :
    |q - (jsRound q : ℚ)| ≤ |q - (m : ℚ)| := by
  rcases eq_or_ne m (jsRound q) with rfl | hm
  · exact le_refl _
  · have h1 : |q - (jsRound q : ℚ)| ≤ 1/2 := jsRound_dist_le_half q
    have h2 : (1 : ℚ) ≤ |(m : ℚ) - (jsRound q : ℚ)| := by
      have hz : (1 : ℤ) ≤ |m - jsRound q| := Int.one_le_abs (sub_ne_zero.mpr hm)
      exact_mod_cast hz
    have h3 : |(m : ℚ) - (jsRound q : ℚ)| ≤ |(m : ℚ) - q| + |q - (jsRound q : ℚ)| :=
      abs_sub_le _ _ _
    have h4 : |q - (m : ℚ)| = |(m : ℚ) - q| := abs_sub_comm _ _
    linarith

/-- Rewriting the candidate error over a common denominator. -/
theorem errAt_eq (x : ℚ) (d : ℕ) (hd : 1 ≤ d) :
    errAt x d = |x * (d : ℚ) - (jsRound (x * (d : ℚ)) : ℚ)| / (d : ℚ) := by
  have hd0 : (0 : ℚ) < (d : ℚ) := by exact_mod_cast hd
  rw [errAt]
  rw [show x - (jsRound (x * (d : ℚ)) : ℚ) / (d : ℚ)
        = (x * (d : ℚ) - (jsRound (x * (d : ℚ)) : ℚ)) / (d : ℚ) by
      field_simp]
  rw [abs_div, abs_of_pos hd0]

/-- The loop's candidate at denominator `d` has the least error among all
fractions with that denominator. -/
theorem errAt_le (x : ℚ) (d : ℕ) (hd : 1 ≤ d) (m : ℤ) :
    errAt x d ≤ |x - (m : ℚ) / (d : ℚ)| := by
  have hd0 : (0 : ℚ) < (d : ℚ) := by exact_mod_cast hd
  rw [errAt_eq x d hd]
  rw [show x - (m : ℚ) / (d : ℚ) = (x * (d : ℚ) - (m : ℚ)) / (d : ℚ) by field_simp]
  rw [abs_div, abs_of_pos hd0]
  exact (div_le_div_iff_of_pos_right hd0).mpr (jsRound_nearest (x * (d : ℚ)) m)

/-- Any candidate error is at most 1/2 (in particular, below the initial 1). -/
theorem errAt_le_half (x : ℚ) (d : ℕ) (hd : 1 ≤ d) : errAt x d ≤ 1/2 := by
  have hd0 : (0 : ℚ) < (d : ℚ) := by exact_mod_cast hd
  have hd1 : (1 : ℚ) ≤ (d : ℚ) := by exact_mod_cast hd
  rw [errAt_eq x d hd]
  have h1 : |x * (d : ℚ) - (jsRound (x * (d : ℚ)) : ℚ)| ≤ 1/2 :=
    jsRound_dist_le_half _
  calc |x * (d : ℚ) - (jsRound (x * (d : ℚ)) : ℚ)| / (d : ℚ)
      ≤ (1/2) / (d : ℚ) := (div_le_div_iff_of_pos_right hd0).mpr h1
    _ ≤ (1/2) / 1 := by
        apply div_le_div_of_nonneg_left (by norm_num) (by norm_num) hd1
    _ = 1/2 := by norm_num

/-- Unrolling the search by its last iteration. -/
theorem fracSearch_succ (x : ℚ) (k : ℕ) :
    fracSearch x (k + 1) = fracStep x (fracSearch x k) (k + 1) := by
  rw [fracSearch, fracSearch, List.range'_concat, List.foldl_append]
  have h : 1 + 1 * k = k + 1 := by omega
  rw [h]
  rfl

/-- Invariant of the `approxFraction` search: after scanning denominators
`1..k` the best candidate records its own data consistently, lies in range,
has minimal error among all scanned denominators, and strictly beats every
smaller denominator (the strict `err < best.err` comparison keeps the first,
i.e. smallest, denominator achieving the minimum). -/
theorem fracSearch_inv (x : ℚ) :
    ∀ k : ℕ, 1 ≤ k →
      (fracSearch x k).n = jsRound (x * ((fracSearch x k).d : ℚ)) ∧
      (fracSearch x k).err = errAt x (fracSearch x k).d ∧
      1 ≤ (fracSearch x k).d ∧ (fracSearch x k).d ≤ k ∧
      (∀ d, 1 ≤ d → d ≤ k → (fracSearch x k).err ≤ errAt x d) ∧
      (∀ d, 1 ≤ d → d < (fracSearch x k).d → (fracSearch x k).err < errAt x d) := by
  intro k
  induction k with
  | zero => omega
  | succ k ih =>
    intro _
    rcases Nat.eq_zero_or_pos k with rfl | hk
    · -- base case: a single iteration at d = 1
      have hbase : fracSearch x 1 = fracStep x { n := 0, d := 1, err := 1 } 1 := by
        rw [fracSearch]
        rfl
      have hlt : errAt x 1 < 1 :=
        lt_of_le_of_lt (errAt_le_half x 1 (le_refl 1)) (by norm_num)
      have hstep : fracStep x { n := 0, d := 1, err := 1 } 1 =
          { n := jsRound (x * ((1 : ℕ) : ℚ)), d := 1, err := errAt x 1 } := by
        rw [fracStep]
        simp only [errAt] at hlt ⊢
        rw [if_pos hlt]
      rw [hbase, hstep]
      refine ⟨rfl, rfl, le_refl 1, le_refl 1, ?_, ?_⟩
      · intro d hd1 hd2
        have : d = 1 := by omega
        subst this
        exact le_refl _
      · intro d hd1 hd2
        have hd2' : d < 1 := hd2
        omega
    · obtain ⟨ih1, ih2, ih3, ih4, ih5, ih6⟩ := ih hk
      rw [fracSearch_succ]
      simp only [fracStep]
      split
      · next himp =>
        -- the new candidate at d = k+1 strictly improves
        have himp' : errAt x (k+1) < (fracSearch x k).err := himp
        refine ⟨rfl, rfl, Nat.succ_le_succ (Nat.zero_le k), le_refl _, ?_, ?_⟩
        · intro d hd1 hd2
          show errAt x (k+1) ≤ errAt x d
          rcases Nat.lt_or_ge d (k+1) with hlt | hge
          · exact le_of_lt (lt_of_lt_of_le himp' (ih5 d hd1 (by omega)))
          · have : d = k + 1 := by omega
            subst this
            exact le_refl _
        · intro d hd1 hd2
          show errAt x (k+1) < errAt x d
          have hdk : d ≤ k := by
            have hdlt : d < k + 1 := hd2
            omega
          exact lt_of_lt_of_le himp' (ih5 d hd1 hdk)
      · next himp =>
        -- the previous best is kept
        have himp' : (fracSearch x k).err ≤ errAt x (k+1) := not_lt.mp himp
        refine ⟨ih1, ih2, ih3, by omega, ?_, ih6⟩
        intro d hd1 hd2
        rcases Nat.lt_or_ge d (k+1) with hlt | hge
        · exact ih5 d hd1 (by omega)
        · have : d = k + 1 := by omega
          subst this
          exact himp'

/-- C8 (Fraction display helper): for every positive rational `x`,
`approxFraction x 20` returns a fraction `n/d` with `1 ≤ d ≤ 20` whose error
`|x - n/d|` is minimal over all integer numerators and all denominators 1..20,
and every strictly smaller denominator gives a strictly larger error (so ties
are broken by the smallest denominator); every non-positive input returns
`(0, 1)`. -/
theorem approxFraction_spec (x : ℚ) :
    (x ≤ 0 → approxFraction x 20 = (0, 1)) ∧
    (0 < x →
      1 ≤ (approxFraction x 20).2 ∧ (approxFraction x 20).2 ≤ 20 ∧
      (∀ (m : ℤ) (d : ℕ), 1 ≤ d → d ≤ 20 →
        |x - ((approxFraction x 20).1 : ℚ) / ((approxFraction x 20).2 : ℚ)| ≤
          |x - (m : ℚ) / (d : ℚ)|) ∧
      (∀ (m : ℤ) (d : ℕ), 1 ≤ d → d < (approxFraction x 20).2 →
        |x - ((approxFraction x 20).1 : ℚ) / ((approxFraction x 20).2 : ℚ)| <
          |x - (m : ℚ) / (d : ℚ)|)) := by
  constructor
  · intro hx
    rw [approxFraction, if_pos hx]
  · intro hx
    have hx' : ¬ x ≤ 0 := not_le.mpr hx
    obtain ⟨h1, h2, h3, h4, h5, h6⟩ := fracSearch_inv x 20 (by norm_num)
    set b := fracSearch x 20 with hbdef
    have hberr : |x - (b.n : ℚ) / (b.d : ℚ)| = b.err := by
      rw [h2, errAt, ← h1]
    have hstep1 : approxFraction x 20 =
        (if b.n = 0 then ((0 : ℤ), (1 : ℕ))
         else (b.n / (Int.gcd b.n b.d : ℤ), b.d / Int.gcd b.n b.d)) := by
      rw [approxFraction, if_neg hx', ← hbdef]
    suffices happrox : approxFraction x 20 = (b.n, b.d) by
      rw [happrox]
      refine ⟨h3, h4, ?_, ?_⟩
      · intro m d hd1 hd2
        calc |x - (b.n : ℚ) / (b.d : ℚ)| = b.err := hberr
          _ ≤ errAt x d := h5 d hd1 hd2
          _ ≤ |x - (m : ℚ) / (d : ℚ)| := errAt_le x d hd1 m
      · intro m d hd1 hd2
        calc |x - (b.n : ℚ) / (b.d : ℚ)| = b.err := hberr
          _ < errAt x d := h6 d hd1 hd2
          _ ≤ |x - (m : ℚ) / (d : ℚ)| := errAt_le x d hd1 m
    rcases eq_or_ne b.n 0 with hn | hn
    · -- zero numerator: the best denominator must already be 1
      have hbd1 : b.d = 1 := by
        by_contra hbd
        have h1lt : 1 < b.d := by omega
        have hlt : b.err < errAt x 1 := h6 1 (le_refl 1) h1lt
        have hle : errAt x 1 ≤ |x - ((0 : ℤ) : ℚ) / ((1 : ℕ) : ℚ)| :=
          errAt_le x 1 (le_refl 1) 0
        have hx0 : |x - ((0 : ℤ) : ℚ) / ((1 : ℕ) : ℚ)| = |x| := by norm_num
        have hberr' : b.err = |x| := by
          rw [← hberr, hn]
          norm_num
        rw [hberr'] at hlt
        rw [hx0] at hle
        linarith
      rw [hstep1, if_pos hn, hn, hbd1]
    · -- nonzero numerator: the best fraction is already in lowest terms
      have hg1 : Int.gcd b.n b.d = 1 := by
        by_contra hg
        have hgpos : 0 < Int.gcd b.n (b.d : ℤ) :=
          Nat.pos_of_ne_zero (fun h0 => hn (Int.gcd_eq_zero_iff.mp h0).1)
        have hgn : ((Int.gcd b.n (b.d : ℤ) : ℕ) : ℤ) ∣ b.n := Int.gcd_dvd_left
        have hgd : Int.gcd b.n (b.d : ℤ) ∣ b.d :=
          Int.natCast_dvd_natCast.mp Int.gcd_dvd_right
        have hdpos : 0 < b.d := h3
        have hgle : Int.gcd b.n (b.d : ℤ) ≤ b.d := Nat.le_of_dvd hdpos hgd
        obtain ⟨a, ha⟩ := hgn
        obtain ⟨c, hc⟩ := hgd
        have hc1 : 1 ≤ c := by
          rcases Nat.eq_zero_or_pos c with rfl | hcpos
          · rw [Nat.mul_zero] at hc
            omega
          · omega
        have hclt : c < b.d := by
          have hg2 : 2 ≤ Int.gcd b.n (b.d : ℤ) := by omega
          calc c < 2 * c := by omega
            _ ≤ Int.gcd b.n (b.d : ℤ) * c := by
                exact Nat.mul_le_mul_right c hg2
            _ = b.d := hc.symm
        have hgne : ((Int.gcd b.n (b.d : ℤ) : ℕ) : ℚ) ≠ 0 :=
          Nat.cast_ne_zero.mpr (by omega)
        have hnq : (b.n : ℚ) = ((Int.gcd b.n (b.d : ℤ) : ℕ) : ℚ) * (a : ℚ) := by
          exact_mod_cast ha
        have hdq : (b.d : ℚ) = ((Int.gcd b.n (b.d : ℤ) : ℕ) : ℚ) * (c : ℚ) := by
          exact_mod_cast hc
        have hval : (a : ℚ) / (c : ℚ) = (b.n : ℚ) / (b.d : ℚ) := by
          rw [hnq, hdq, mul_div_mul_left _ _ hgne]
        have hle : errAt x c ≤ |x - (a : ℚ) / (c : ℚ)| := errAt_le x c hc1 a
        have hlt : b.err < errAt x c := h6 c hc1 hclt
        rw [hval, hberr] at hle
        linarith
      rw [hstep1, if_neg hn, hg1]
      norm_num

/-- Witness for `approxFraction` at a concrete input: a non-positive
proportion returns `(0, 1)`. -/
theorem approxFraction_spec_witness : approxFraction (-1) 20 = (0, 1) :=
  (approxFraction_spec (-1)).1 (by norm_num)

end Claims

end TipApp
